import Mathlib

/-!
# Verification of the DepGraphX entity/scope extraction core

Shallow embedding of `src/modules/code_scanner.py` and the persistence
semantics of `src/modules/graph_db.py`.

Modelling conventions:
* A tree-sitter syntax tree is an inductive `TSNode` carrying the node type,
  the byte span of the node, the byte span of its `name` field
  (`child_by_field_name('name')`; both grammars require a name field on
  class/method declarations, so the span is total), and the child list.
* File bytes are `List Nat`; text decoding is modelled over single-byte
  (ASCII/Latin-1) content, where `bytes.decode('utf-8')` is the identity
  embedding of bytes into characters.
* Query capture lists (`query.captures(root)`) are inputs produced by the
  external tree-sitter engine: lists of `(node, tag)` pairs.
* The Python `str`/`bytes` dynamic-type distinction is modelled by `PyVal`
  where it matters (`get_method_source` passes a decoded `str` back into
  `_get_node_text`, which calls `.decode` on it).
-/

namespace DepGraphX

/-- Decode a byte list as text (single-byte model of `bytes.decode('utf-8')`). -/
def decodeBytes (b : List Nat) : String :=
  String.mk (b.map Char.ofNat)

/-- Encode an ASCII string as its byte list (model of reading the file in binary mode). -/
def strToBytes (s : String) : List Nat :=
  s.toList.map Char.toNat

/-- A tree-sitter syntax node: node type, byte span of the `name` field child,
own byte span, children. -/
inductive TSNode : Type where
  | mk (ty : String) (nameStart nameEnd : Nat) (startByte endByte : Nat)
      (children : List TSNode)

def TSNode.ty : TSNode → String
  | .mk t _ _ _ _ _ => t

def TSNode.nameStart : TSNode → Nat
  | .mk _ ns _ _ _ _ => ns

def TSNode.nameEnd : TSNode → Nat
  | .mk _ _ ne _ _ _ => ne

def TSNode.startByte : TSNode → Nat
  | .mk _ _ _ s _ _ => s

def TSNode.endByte : TSNode → Nat
  | .mk _ _ _ _ e _ => e

def TSNode.children : TSNode → List TSNode
  | .mk _ _ _ _ _ cs => cs

/-- Text of the byte span `[s, e)` of `src` (`source_code[start:end].decode('utf-8')`). -/
def getTextSpan (src : List Nat) (s e : Nat) : String :=
  decodeBytes ((src.drop s).take (e - s))

/-- `CodeScanner._get_node_text` applied to a node, on the raw bytes read from disk. -/
def get_node_text (src : List Nat) (n : TSNode) : String :=
  getTextSpan src n.startByte n.endByte

/-- A class entity record as built by `_extract_entities`. -/
structure ClassEntity where
  name : String
  file : String
  startByte : Nat
  endByte : Nat
deriving DecidableEq, Repr

/-- A method entity record as built by `_extract_entities` (`'class'` key). -/
structure MethodEntity where
  name : String
  className : String
  file : String
  startByte : Nat
  endByte : Nat
deriving DecidableEq, Repr

/-- A dependency record appended to `entities['dependencies']`. The Python dicts
with `'interfaces'` versus `'parent'` keys become two constructors. -/
inductive Dependency : Type where
  | methodCall (callerClass callerMethod callee file : String)
  | imp (file importPath : String)
  | inheritImpl (cls file : String) (interfaces : List String)
  | inheritExt (cls file parent : String)
deriving DecidableEq, Repr

/-- The mutable `entities` dictionary threaded through the scan. -/
structure Entities where
  classes : List ClassEntity
  methods : List MethodEntity
  dependencies : List Dependency
deriving DecidableEq, Repr

def emptyEntities : Entities := ⟨[], [], []⟩

/-- One call issued to the `Neo4jGraph` persister, in issue order. -/
inductive PersistOp : Type where
  | createClass (name file : String)
  | createMethod (name className file : String)
  | createDep (d : Dependency)
deriving DecidableEq, Repr

/-- The span test `cls['start_byte'] <= b < cls['end_byte']`. -/
def classContains (c : ClassEntity) (b : Nat) : Bool :=
  decide (c.startByte ≤ b ∧ b < c.endByte)

/-- The span test for method entities. -/
def methodContains (m : MethodEntity) (b : Nat) : Bool :=
  decide (m.startByte ≤ b ∧ b < m.endByte)

/-- The per-node action of `CodeScanner._extract_entities` (the branch on
`node.type` before recursing into children). Note that the enclosing-class
search `next(cls for cls in entities['classes'] if ...)` scans the classes of
all files accumulated so far, in emission order, with no file filter. -/
def extract_step (ty : String) (nameStart nameEnd s e : Nat) (src : List Nat)
    (ents : Entities) (file : String) : Entities × List PersistOp :=
  if ty = "class_declaration" then
    let className := getTextSpan src nameStart nameEnd
    ({ ents with classes := ents.classes ++ [⟨className, file, s, e⟩] },
     [PersistOp.createClass className file])
  else if ty = "method_declaration" then
    let methodName := getTextSpan src nameStart nameEnd
    match ents.classes.find? (fun c => classContains c s) with
    | some currentClass =>
        ({ ents with
            methods := ents.methods ++ [⟨methodName, currentClass.name, file, s, e⟩] },
         [PersistOp.createMethod methodName currentClass.name file])
    | none => (ents, [])
  else (ents, [])

mutual

/-- `CodeScanner._extract_entities`: depth-first pre-order traversal that
records class/method entities and issues a persister upsert per discovery. -/
def extract_entities : TSNode → List Nat → Entities → String → Entities × List PersistOp
  | TSNode.mk ty ns ne s e children, src, ents, file =>
    let p := extract_step ty ns ne s e src ents file
    let q := extract_entities_list children src p.1 file
    (q.1, p.2 ++ q.2)

/-- Traversal of a child list, left to right. -/
def extract_entities_list : List TSNode → List Nat → Entities → String → Entities × List PersistOp
  | [], _, ents, _ => (ents, [])
  | c :: rest, src, ents, file =>
    let p := extract_entities c src ents file
    let q := extract_entities_list rest src p.1 file
    (q.1, p.2 ++ q.2)

end

/-- A `(node, tag)` capture pair as returned by `query.captures(tree.root_node)`. -/
abbrev Capture := TSNode × String

/-- `CodeScanner._find_enclosing_entity` specialised to `entity_type = 'classes'`:
filter to the same file, then return the first candidate whose span contains
the byte offset. -/
def find_enclosing_class (nodeByte : Nat) (classes : List ClassEntity)
    (file : String) : Option ClassEntity :=
  (classes.filter (fun en => decide (en.file = file))).find?
    (fun en => classContains en nodeByte)

/-- `CodeScanner._find_enclosing_entity` specialised to `entity_type = 'methods'`. -/
def find_enclosing_method (nodeByte : Nat) (methods : List MethodEntity)
    (file : String) : Option MethodEntity :=
  (methods.filter (fun en => decide (en.file = file))).find?
    (fun en => methodContains en nodeByte)

/-- The companion-capture scan `for child_node, child_tag in captures: if child_tag == tag: x = text`:
the loop overwrites, so the final value is the text of the last capture with
that tag, or `None` if there is none. -/
def capture_last_text (caps : List Capture) (tag : String) (src : List Nat) :
    Option String :=
  ((caps.filter (fun p => decide (p.2 = tag))).getLast?).map
    (fun p => get_node_text src p.1)

/-- The companion-capture scan for `'interface'` tags: collects all of them in order. -/
def capture_all_texts (caps : List Capture) (tag : String) (src : List Nat) :
    List String :=
  (caps.filter (fun p => decide (p.2 = tag))).map (fun p => get_node_text src p.1)

/-- Quote characters stripped by `module_path_str.strip('\x27"')`. -/
def isQuoteChar (c : Char) : Bool :=
  c = Char.ofNat 39 || c = Char.ofNat 34

/-- Python `str.strip('\x27"')`: drop quote characters from both ends. -/
def strip_quote_chars (s : String) : String :=
  String.mk (((s.toList.dropWhile isQuoteChar).reverse.dropWhile isQuoteChar).reverse)

/-- The TypeScript import companion scan: first `module_path` capture (the loop
breaks after the first hit), its text stripped of surrounding quotes. -/
def capture_first_module_path (caps : List Capture) (src : List Nat) :
    Option String :=
  (caps.find? (fun p => decide (p.2 = "module_path"))).map
    (fun p => strip_quote_chars (get_node_text src p.1))

/-- Python `str.startswith`. -/
def py_starts_with (s pre : String) : Bool :=
  pre.toList.isPrefixOf s.toList

/-- The body of the `for node, tag in captures` loop of
`CodeScanner._process_dependency` for one capture pair: the dependencies it
appends (zero or one). Companion captures (`method`/`object`/`interface`/
`module_path`) are looked up by scanning the entire capture list of the query. -/
def new_deps_for (caps : List Capture) (lang : String) (src : List Nat)
    (ents : Entities) (file : String) (cap : Capture) : List Dependency :=
  if lang = "java" then
    if cap.2 = "call" then
      match capture_last_text caps "method" src, capture_last_text caps "object" src with
      | some methodName, some objectName =>
        -- Python truthiness: `if method_name and object_name`
        if methodName ≠ "" ∧ objectName ≠ "" then
          let callee := objectName ++ "." ++ methodName
          match find_enclosing_class cap.1.startByte ents.classes file,
                find_enclosing_method cap.1.startByte ents.methods file with
          | some enclosingClass, some enclosingMethod =>
              [Dependency.methodCall enclosingClass.name enclosingMethod.name callee file]
          | _, _ => []
        else []
      | _, _ => []
    else if cap.2 = "import_path" then
      [Dependency.imp file (get_node_text src cap.1)]
    else if cap.2 = "class_name" then
      [Dependency.inheritImpl (get_node_text src cap.1) file
        (capture_all_texts caps "interface" src)]
    else []
  else if lang = "typescript" then
    if cap.2 = "call" then
      match capture_last_text caps "method" src, capture_last_text caps "object" src with
      | some methodName, some objectName =>
        if methodName ≠ "" ∧ objectName ≠ "" then
          let callee := objectName ++ "." ++ methodName
          match find_enclosing_class cap.1.startByte ents.classes file,
                find_enclosing_method cap.1.startByte ents.methods file with
          | some enclosingClass, some enclosingMethod =>
              [Dependency.methodCall enclosingClass.name enclosingMethod.name callee file]
          | _, _ => []
        else []
      | _, _ => []
    else if py_starts_with cap.2 "import" then
      match capture_first_module_path caps src with
      | some modulePath =>
          -- Python truthiness: `if module_path`
          if modulePath ≠ "" then [Dependency.imp file modulePath] else []
      | none => []
    else if cap.2 = "parent" then
      match find_enclosing_class cap.1.startByte ents.classes file with
      | some enclosingClass =>
          [Dependency.inheritExt enclosingClass.name file (get_node_text src cap.1)]
      | none => []
    else []
  else []

/-- `CodeScanner._process_dependency`: the loop over all captures of one query,
appending dependencies to `entities['dependencies']`. -/
def process_dependency (caps : List Capture) (lang : String) (src : List Nat)
    (ents : Entities) (file : String) : Entities :=
  caps.foldl
    (fun acc cap =>
      { acc with dependencies := acc.dependencies ++ new_deps_for caps lang src acc file cap })
    ents

/-- One source file as seen by `scan_project`: path, extension, raw bytes, the
parsed tree, and the capture lists of the three queries of `self.QUERIES[lang]`
(`method_calls`, `imports`, `inheritance`, in dict insertion order), as
returned by the external tree-sitter engine. -/
structure SourceFile where
  path : String
  ext : String
  source : List Nat
  tree : TSNode
  methodCallCaptures : List Capture
  importCaptures : List Capture
  inheritanceCaptures : List Capture

/-- Extensions with an entry in `self.supported_extensions`. -/
def supported_ext (ext : String) : Bool :=
  ext = ".java" || ext = ".ts" || ext = ".tsx"

/-- `lang = 'java' if ext == '.java' else 'typescript'`. -/
def lang_of (ext : String) : String :=
  if ext = ".java" then "java" else "typescript"

/-- The per-file body of the `scan_project` loop: extract entities, then run
the three dependency queries. -/
def scan_file (ents : Entities) (f : SourceFile) : Entities × List PersistOp :=
  if supported_ext f.ext then
    let p := extract_entities f.tree f.source ents f.path
    let lang := lang_of f.ext
    let e2 := process_dependency f.methodCallCaptures lang f.source p.1 f.path
    let e3 := process_dependency f.importCaptures lang f.source e2 f.path
    let e4 := process_dependency f.inheritanceCaptures lang f.source e3 f.path
    (e4, p.2)
  else (ents, [])

/-- The loop over all discovered files, threading the shared `entities` dict. -/
def scan_files (ents : Entities) : List SourceFile → Entities × List PersistOp
  | [] => (ents, [])
  | f :: rest =>
    let p := scan_file ents f
    let q := scan_files p.1 rest
    (q.1, p.2 ++ q.2)

/-- `CodeScanner.scan_project`: phase 1 scans all files (entity upserts are
issued during traversal), phase 2 issues one `create_dependency` call per
accumulated dependency. Returns the entities and the persister call stream. -/
def scan_project (files : List SourceFile) : Entities × List PersistOp :=
  let p := scan_files emptyEntities files
  (p.1, p.2 ++ p.1.dependencies.map PersistOp.createDep)

/-! ## Persistence layer (`src/modules/graph_db.py`)

The Neo4j store is modelled as key sets with Cypher `MERGE` = insert-if-absent
and `MATCH` = filter over existing keys. Only the node labels and relationships
the claims need are represented. -/

/-- `dependency_data['callee'].split('.', 1)` unpacked into two names: succeeds
exactly when the callee contains a dot, otherwise the `ValueError` branch
(warning + discard) is taken. -/
def split_callee (callee : String) : Option (String × String) :=
  if callee.toList.contains (Char.ofNat 46) then
    some (String.mk (callee.toList.takeWhile (fun c => decide (c ≠ Char.ofNat 46))),
          String.mk ((callee.toList.dropWhile (fun c => decide (c ≠ Char.ofNat 46))).tail))
  else none

/-- Node/relationship state of the graph store, as far as entity upserts are
concerned: `Class {name, file}` keys, `Method {name, class, file}` keys,
`HAS_METHOD` relationships, and any preexisting `BELONGS_TO` relationships
(matched, never created, by this code). -/
structure GraphDB where
  classNodes : List (String × String)
  methodNodes : List (String × String × String)
  hasMethodEdges : List ((String × String) × (String × String × String))
  belongsToEdges : List ((String × String × String) × (String × String))
deriving DecidableEq, Repr

/-- Cypher `MERGE` on a key: insert if absent, no-op otherwise. -/
def insertNew {α : Type} [DecidableEq α] (x : α) (l : List α) : List α :=
  if x ∈ l then l else l ++ [x]

/-- Effect of one persister call on the entity-node state:
`_create_class_node_transaction` merges the class key;
`_create_method_node_transaction` merges the method key, the class key and the
`HAS_METHOD` relationship; `_create_dependency_transaction` creates no
`Class {name, file}` / `Method {name, class, file}` entity node. -/
def apply_entity_op (db : GraphDB) (op : PersistOp) : GraphDB :=
  match op with
  | .createClass n f => { db with classNodes := insertNew (n, f) db.classNodes }
  | .createMethod n c f =>
      { db with
          methodNodes := insertNew (n, c, f) db.methodNodes
          classNodes := insertNew (c, f) db.classNodes
          hasMethodEdges := insertNew ((c, f), (n, c, f)) db.hasMethodEdges }
  | .createDep _ => db

/-- Folding a persister call stream over the store. -/
def apply_entity_ops (db : GraphDB) (ops : List PersistOp) : GraphDB :=
  ops.foldl apply_entity_op db

/-- A relationship merged by `_create_dependency_transaction`. -/
inductive GraphEdge : Type where
  | callsEdge (callerMethodKey : String × String × String) (calleeName : String)
  | importsEdge (classKey : String × String) (path : String)
  | implementsEdge (classKey : String × String) (interfaceName : String)
  | extendsEdge (classKey : String × String) (parentName : String)
deriving DecidableEq, Repr

/-- The relationships `_create_dependency_transaction` merges for one
dependency, given the current store. A Cypher `MATCH` that finds nothing makes
the statement create nothing; a `method_call` whose callee cannot be split is
discarded with a warning. -/
def create_dependency_transaction (db : GraphDB) (d : Dependency) : List GraphEdge :=
  match d with
  | .methodCall callerClass callerMethod callee _file =>
      match split_callee callee with
      | none => []
      | some _ =>
          -- MATCH (caller_class:Class {name}) MATCH (caller_method:Method {name})-[:BELONGS_TO]->(caller_class)
          (db.classNodes.filter (fun ck => decide (ck.1 = callerClass))).flatMap
            (fun ck =>
              (db.methodNodes.filter
                  (fun mk2 => decide (mk2.1 = callerMethod) &&
                    decide ((mk2, ck) ∈ db.belongsToEdges))).map
                (fun mk2 => GraphEdge.callsEdge mk2 callee))
  | .imp file path =>
      -- MATCH (c:Class {file}): one IMPORTS edge per class of the file
      (db.classNodes.filter (fun ck => decide (ck.2 = file))).map
        (fun ck => GraphEdge.importsEdge ck path)
  | .inheritImpl cls file interfaces =>
      -- one tx.run per interface, each MATCHing (c:Class {name, file})
      if (cls, file) ∈ db.classNodes then
        interfaces.map (fun i => GraphEdge.implementsEdge (cls, file) i)
      else []
  | .inheritExt cls file parent =>
      if (cls, file) ∈ db.classNodes then
        [GraphEdge.extendsEdge (cls, file) parent]
      else []

/-! ## `get_method_source` (`src/modules/code_scanner.py`, lines 272-304)

Here the dynamic `str`/`bytes` distinction matters: the method decodes the file
bytes into `source_code` (a `str`) and then passes that `str` to
`_get_node_text`, which slices it and calls `.decode('utf-8')` on the slice. -/

/-- A dynamically typed Python value: text or bytes. -/
inductive PyVal : Type where
  | pstr (s : String)
  | pbytes (b : List Nat)

/-- Python slicing `v[a:b]` on either type. -/
def py_slice : PyVal → Nat → Nat → PyVal
  | .pstr s, a, b => .pstr (String.mk ((s.toList.drop a).take (b - a)))
  | .pbytes l, a, b => .pbytes ((l.drop a).take (b - a))

/-- Python `.decode('utf-8')`: defined on `bytes`, raises `AttributeError` on `str`. -/
def py_decode : PyVal → Except String String
  | .pstr _ => Except.error "AttributeError: str object has no attribute decode"
  | .pbytes l => Except.ok (decodeBytes l)

/-- `CodeScanner._get_node_text` as actually executed: slice then `.decode`. -/
def get_node_text_py (src : PyVal) (startByte endByte : Nat) : Except String String :=
  py_decode (py_slice src startByte endByte)

/-- A capture of the `(method_declaration name: (identifier) @method_name) @method`
query inside `get_method_source`, with the spans of the capture node and of its
`node.parent`. -/
structure MSCapture where
  nodeStart : Nat
  nodeEnd : Nat
  parentStart : Nat
  parentEnd : Nat
  tag : String
deriving DecidableEq, Repr

/-- The capture loop of `get_method_source`, inside the `try`: on each
`method_name` capture the text is read via `_get_node_text(node, source_code)`
where `source_code` is the decoded `str`; a match returns the byte slice
`source_code_bytes[node.parent.start_byte : node.parent.end_byte]` decoded. -/
def gms_loop (methodName : String) (sourceStr : String) (sourceBytes : List Nat) :
    List MSCapture → Except String (Option String)
  | [] => Except.ok none
  | cap :: rest =>
    if cap.tag = "method_name" then
      match get_node_text_py (PyVal.pstr sourceStr) cap.nodeStart cap.nodeEnd with
      | Except.error e => Except.error e
      | Except.ok current =>
        if current = methodName then
          Except.ok (some (decodeBytes
            ((sourceBytes.drop cap.parentStart).take (cap.parentEnd - cap.parentStart))))
        else gms_loop methodName sourceStr sourceBytes rest
    else gms_loop methodName sourceStr sourceBytes rest

/-- `CodeScanner.get_method_source`: unsupported extension returns `None`;
otherwise the capture loop runs inside `try`, and any exception is caught,
logged, and turned into `None`. -/
def get_method_source (methodName : String) (ext : String) (sourceBytes : List Nat)
    (captures : List MSCapture) : Option String :=
  if supported_ext ext then
    match gms_loop methodName (decodeBytes sourceBytes) sourceBytes captures with
    | Except.ok r => r
    | Except.error _ => none
  else none

/-! ## Derived predicates used in the statements -/

/-- A persister call that upserts an entity (class or method), as opposed to a
dependency-edge creation. -/
def entityOp : PersistOp → Prop
  | .createClass _ _ => True
  | .createMethod _ _ _ => True
  | .createDep _ => False

/-- Soundness of method ownership: every recorded method was attached to the
first class — in emission order, over the classes of all files accumulated up
to its emission (a prefix of the final class list) — whose span contains the
method's start offset. -/
def MInv (ents : Entities) : Prop :=
  ∀ m ∈ ents.methods, ∃ preCs sufCs c,
    ents.classes = preCs ++ sufCs ∧
    preCs.find? (fun cc => classContains cc m.startByte) = some c ∧
    c.name = m.className

/-- Every accumulated `method_call` dependency has a splittable callee. -/
def DotInv (ents : Entities) : Prop :=
  ∀ cc cm callee f, Dependency.methodCall cc cm callee f ∈ ents.dependencies →
    (split_callee callee).isSome = true

/-- Bundle of extraction facts relating an input entity state to an output
state and persister call list. -/
def ExtractProps (ents : Entities) (out : Entities × List PersistOp) : Prop :=
  (∃ ds, out.1.classes = ents.classes ++ ds) ∧
  out.1.dependencies = ents.dependencies ∧
  (∀ op ∈ out.2, entityOp op) ∧
  (MInv ents → MInv out.1)

/-- The keys merged by a persister call are already present in the store. -/
def opApplied (db : GraphDB) (op : PersistOp) : Prop :=
  match op with
  | .createClass n f => (n, f) ∈ db.classNodes
  | .createMethod n c f =>
      (n, c, f) ∈ db.methodNodes ∧ (c, f) ∈ db.classNodes ∧
      ((c, f), (n, c, f)) ∈ db.hasMethodEdges
  | .createDep _ => True

/-- The import path carried by a dependency, if it is an import dependency. -/
def importPathOf : Dependency → Option String
  | .imp _ p => some p
  | _ => none

/-- Is this relationship an `IMPLEMENTS` relationship? -/
def edgeIsImplements : GraphEdge → Bool
  | .implementsEdge _ _ => true
  | _ => false

/-- Is this relationship an `EXTENDS` relationship? -/
def edgeIsExtends : GraphEdge → Bool
  | .extendsEdge _ _ => true
  | _ => false

/-! ## Concrete fixtures

Each fixture is a syntax tree (with byte spans consistent with its source
text) and the capture lists the tree-sitter queries produce on it, for small
Java/TypeScript inputs. Nodes whose `name` field is never consulted carry a
dummy `0 0` name span. -/

/-- A node with no relevant name field and no children. -/
def nodeLeaf (ty : String) (s e : Nat) : TSNode := TSNode.mk ty 0 0 s e []

def emptyDB : GraphDB := ⟨[], [], [], []⟩

/-- `class A { int x ; }` (byte span of the class: `[0, 19)`, name `A` at `[6, 7)`). -/
def s1 : String := "class A \x7b int x ; \x7d"

def tree1 : TSNode :=
  TSNode.mk "program" 0 0 0 19
    [TSNode.mk "class_declaration" 6 7 0 19
      [nodeLeaf "identifier" 6 7,
       TSNode.mk "class_body" 0 0 8 19 [nodeLeaf "field_declaration" 10 17]]]

def file1 : SourceFile := ⟨"p1.java", ".java", strToBytes s1, tree1, [], [], []⟩

/-- `interface Foo { void m ( ) ; } class A { }`: the interface method `m` is a
`method_declaration` node at `[16, 28)` that is not inside any class of this
file; class `A` of this file spans `[31, 42)`. -/
def s2 : String := "interface Foo \x7b void m ( ) ; \x7d class A \x7b \x7d"

def tree2 : TSNode :=
  TSNode.mk "program" 0 0 0 42
    [TSNode.mk "interface_declaration" 10 13 0 30
      [nodeLeaf "identifier" 10 13,
       TSNode.mk "interface_body" 0 0 14 30
         [TSNode.mk "method_declaration" 21 22 16 28 [nodeLeaf "identifier" 21 22]]],
     TSNode.mk "class_declaration" 37 38 31 42
      [nodeLeaf "identifier" 37 38,
       TSNode.mk "class_body" 0 0 39 42 []]]

def file2 : SourceFile := ⟨"p2.java", ".java", strToBytes s2, tree2, [], [], []⟩

/-- `class A { class B { void m ( ) { } } }`: nested classes; method `m` starts
at byte 20, inside both `A` (span `[0, 38)`) and `B` (span `[10, 36)`). -/
def s3 : String := "class A \x7b class B \x7b void m ( ) \x7b \x7d \x7d \x7d"

def tree3 : TSNode :=
  TSNode.mk "program" 0 0 0 38
    [TSNode.mk "class_declaration" 6 7 0 38
      [nodeLeaf "identifier" 6 7,
       TSNode.mk "class_body" 0 0 8 38
         [TSNode.mk "class_declaration" 16 17 10 36
           [nodeLeaf "identifier" 16 17,
            TSNode.mk "class_body" 0 0 18 36
              [TSNode.mk "method_declaration" 25 26 20 34
                [nodeLeaf "identifier" 25 26]]]]]]

def file3 : SourceFile := ⟨"p3.java", ".java", strToBytes s3, tree3, [], [], []⟩

/-- `class A { void f ( ) { class B { void g ( ) { x . h ( ) ; } } } }`: a Java
local class whose method `g` (span `[33, 59)`) is nested inside method `f`
(span `[10, 63)`); the call `x . h ( )` sits at `[46, 55)`, inside both. -/
def s4 : String :=
  "class A \x7b void f ( ) \x7b class B \x7b void g ( ) \x7b x . h ( ) ; \x7d \x7d \x7d \x7d"

def callNode4 : TSNode := nodeLeaf "method_invocation" 46 55
def objNode4 : TSNode := nodeLeaf "identifier" 46 47
def methNode4 : TSNode := nodeLeaf "identifier" 50 51

def tree4 : TSNode :=
  TSNode.mk "program" 0 0 0 65
    [TSNode.mk "class_declaration" 6 7 0 65
      [nodeLeaf "identifier" 6 7,
       TSNode.mk "class_body" 0 0 8 65
         [TSNode.mk "method_declaration" 15 16 10 63
           [nodeLeaf "identifier" 15 16,
            TSNode.mk "block" 0 0 21 63
              [TSNode.mk "class_declaration" 29 30 23 61
                [nodeLeaf "identifier" 29 30,
                 TSNode.mk "class_body" 0 0 31 61
                   [TSNode.mk "method_declaration" 38 39 33 59
                     [nodeLeaf "identifier" 38 39,
                      TSNode.mk "block" 0 0 44 59
                        [TSNode.mk "expression_statement" 0 0 46 57 [callNode4]]]]]]]]]]

def file4 : SourceFile :=
  ⟨"p4.java", ".java", strToBytes s4, tree4,
   [(callNode4, "call"), (objNode4, "object"), (methNode4, "method")], [], []⟩

/-- `class A { void f ( ) { b . g ( ) ; } }`: a single class, a single method,
a single call — the unambiguous scope-attribution scenario. -/
def s5 : String := "class A \x7b void f ( ) \x7b b . g ( ) ; \x7d \x7d"

def callNode5 : TSNode := nodeLeaf "method_invocation" 23 32
def objNode5 : TSNode := nodeLeaf "identifier" 23 24
def methNode5 : TSNode := nodeLeaf "identifier" 27 28

def tree5 : TSNode :=
  TSNode.mk "program" 0 0 0 38
    [TSNode.mk "class_declaration" 6 7 0 38
      [nodeLeaf "identifier" 6 7,
       TSNode.mk "class_body" 0 0 8 38
         [TSNode.mk "method_declaration" 15 16 10 36
           [nodeLeaf "identifier" 15 16,
            TSNode.mk "block" 0 0 21 36
              [TSNode.mk "expression_statement" 0 0 23 34 [callNode5]]]]]]

def file5 : SourceFile :=
  ⟨"p5.java", ".java", strToBytes s5, tree5,
   [(callNode5, "call"), (objNode5, "object"), (methNode5, "method")], [], []⟩

/-- The f-entity and A-entity that the scan of `file5` produces. -/
def fEntity5 : MethodEntity := ⟨"f", "A", "p5.java", 10, 36⟩

def aEntity5 : ClassEntity := ⟨"A", "p5.java", 0, 38⟩

/-- `class C implements X , Y { }`: the Java inheritance query captures
`class_name` `C` at `[6, 7)` and `interface`s `X` at `[19, 20)`, `Y` at `[23, 24)`. -/
def s7 : String := "class C implements X , Y \x7b \x7d"

def tree7 : TSNode :=
  TSNode.mk "program" 0 0 0 28
    [TSNode.mk "class_declaration" 6 7 0 28
      [nodeLeaf "identifier" 6 7,
       nodeLeaf "super_interfaces" 8 24,
       TSNode.mk "class_body" 0 0 25 28 []]]

def caps7 : List Capture :=
  [(nodeLeaf "identifier" 6 7, "class_name"),
   (nodeLeaf "type_identifier" 19 20, "interface"),
   (nodeLeaf "type_identifier" 23 24, "interface")]

def file7 : SourceFile := ⟨"p7.java", ".java", strToBytes s7, tree7, [], [], caps7⟩

/-- `class A { void f ( ) { } }` for `get_method_source`: the method
declaration spans `[10, 24)`, its name `f` is at `[15, 16)`. -/
def s8 : String := "class A \x7b void f ( ) \x7b \x7d \x7d"

/-- Captures of the `(method_declaration name: (identifier) @method_name) @method`
query on `s8`: the `@method` node `[10, 24)` (whose parent is the class body
`[8, 26)`) and the `@method_name` node `[15, 16)` (whose parent is the method
declaration `[10, 24)`). -/
def caps8 : List MSCapture :=
  [⟨10, 24, 8, 26, "method"⟩, ⟨15, 16, 10, 24, "method_name"⟩]

/-- `import { a } from "m" ;` — a TypeScript import statement with only named
imports: the query captures `named_imports` at `[7, 12)` and `module_path`
(the string `"m"`, quotes included) at `[18, 21)`; no `import_default` capture. -/
def s9 : String := "import \x7b a \x7d from \x22m\x22 ;"

def namedImportsNode9 : TSNode := nodeLeaf "named_imports" 7 12
def stringNode9 : TSNode := nodeLeaf "string" 18 21

def caps9 : List Capture :=
  [(namedImportsNode9, "named_imports"), (stringNode9, "module_path")]

/-! ## Helper lemmas -/

/-- `new_deps_for` reads only the class and method lists of the entity state. -/
theorem new_deps_for_congr (caps : List Capture) (lang : String) (src : List Nat)
    (e1 e2 : Entities) (file : String) (cap : Capture)
    (hc : e1.classes = e2.classes) (hm : e1.methods = e2.methods) :
    new_deps_for caps lang src e1 file cap = new_deps_for caps lang src e2 file cap := by
  unfold new_deps_for
  rw [hc, hm]

/-- Characterisation of the `_process_dependency` loop: the class and method
lists are untouched, and the dependency list is extended by the concatenation
of the per-capture contributions. -/
theorem process_dependency_spec (caps : List Capture) (lang : String) (src : List Nat)
    (file : String) (l : List Capture) (ents : Entities) :
    (l.foldl
        (fun acc cap =>
          { acc with dependencies := acc.dependencies ++ new_deps_for caps lang src acc file cap })
        ents).classes = ents.classes ∧
    (l.foldl
        (fun acc cap =>
          { acc with dependencies := acc.dependencies ++ new_deps_for caps lang src acc file cap })
        ents).methods = ents.methods ∧
    (l.foldl
        (fun acc cap =>
          { acc with dependencies := acc.dependencies ++ new_deps_for caps lang src acc file cap })
        ents).dependencies
      = ents.dependencies ++ l.flatMap (new_deps_for caps lang src ents file) := by
  induction l generalizing ents with
  | nil => simp
  | cons cap rest ih =>
    simp only [List.foldl_cons]
    obtain ⟨ihc, ihm, ihd⟩ :=
      ih { ents with dependencies := ents.dependencies ++ new_deps_for caps lang src ents file cap }
    refine ⟨ihc, ihm, ?_⟩
    rw [ihd]
    have hfun : new_deps_for caps lang src
        { ents with dependencies := ents.dependencies ++ new_deps_for caps lang src ents file cap }
        file = new_deps_for caps lang src ents file :=
      funext (fun c => new_deps_for_congr caps lang src _ ents file c rfl rfl)
    rw [hfun, List.flatMap_cons, List.append_assoc]

/-- The three components of `process_dependency` itself. -/
theorem process_dependency_classes (caps : List Capture) (lang : String) (src : List Nat)
    (ents : Entities) (file : String) :
    (process_dependency caps lang src ents file).classes = ents.classes :=
  (process_dependency_spec caps lang src file caps ents).1

theorem process_dependency_methods (caps : List Capture) (lang : String) (src : List Nat)
    (ents : Entities) (file : String) :
    (process_dependency caps lang src ents file).methods = ents.methods :=
  (process_dependency_spec caps lang src file caps ents).2.1

theorem process_dependency_deps (caps : List Capture) (lang : String) (src : List Nat)
    (ents : Entities) (file : String) :
    (process_dependency caps lang src ents file).dependencies
      = ents.dependencies ++ caps.flatMap (new_deps_for caps lang src ents file) :=
  (process_dependency_spec caps lang src file caps ents).2.2

theorem extractProps_refl (ents : Entities) : ExtractProps ents (ents, []) :=
  ⟨⟨[], by simp⟩, rfl, fun op hop => absurd hop (List.not_mem_nil op), id⟩

theorem extractProps_comp {e0 : Entities} {o1 o2 : Entities × List PersistOp}
    (h1 : ExtractProps e0 o1) (h2 : ExtractProps o1.1 o2) :
    ExtractProps e0 (o2.1, o1.2 ++ o2.2) := by
  obtain ⟨⟨d1, hc1⟩, hd1, ho1, hi1⟩ := h1
  obtain ⟨⟨d2, hc2⟩, hd2, ho2, hi2⟩ := h2
  refine ⟨⟨d1 ++ d2, by rw [hc2, hc1, List.append_assoc]⟩, by rw [hd2, hd1], ?_,
    fun h => hi2 (hi1 h)⟩
  intro op hop
  rcases List.mem_append.mp hop with h | h
  exacts [ho1 op h, ho2 op h]

theorem extract_step_props (ty : String) (ns ne s e : Nat) (src : List Nat)
    (ents : Entities) (file : String) :
    ExtractProps ents (extract_step ty ns ne s e src ents file) := by
  unfold ExtractProps extract_step
  by_cases h1 : ty = "class_declaration"
  · simp only [h1, if_true]
    refine ⟨⟨[⟨getTextSpan src ns ne, file, s, e⟩], rfl⟩, by trivial, ?_, ?_⟩
    · intro op hop
      have : op = PersistOp.createClass (getTextSpan src ns ne) file := by
        simpa using hop
      subst this; trivial
    · intro hinv m hm
      obtain ⟨preCs, sufCs, c, hsplit, hfind, hname⟩ := hinv m hm
      exact ⟨preCs, sufCs ++ [⟨getTextSpan src ns ne, file, s, e⟩], c,
        by simp [hsplit, List.append_assoc], hfind, hname⟩
  · simp only [h1, if_false]
    by_cases h2 : ty = "method_declaration"
    · simp only [h2, if_true]
      cases hfind : ents.classes.find? (fun c => classContains c s) with
      | none =>
        exact ⟨⟨[], by simp⟩, by trivial, fun op hop => absurd hop (List.not_mem_nil op), id⟩
      | some currentClass =>
        refine ⟨⟨[], by simp⟩, by trivial, ?_, ?_⟩
        · intro op hop
          have : op = PersistOp.createMethod (getTextSpan src ns ne) currentClass.name file := by
            simpa using hop
          subst this; trivial
        · intro hinv m hm
          simp only at hm
          rcases List.mem_append.mp hm with hold | hnew
          · exact hinv m hold
          · have hmeq : m = ⟨getTextSpan src ns ne, currentClass.name, file, s, e⟩ := by
              simpa using hnew
            subst hmeq
            exact ⟨ents.classes, [], currentClass, by simp, hfind, rfl⟩
    · simp only [h2, if_false]
      exact ⟨⟨[], by simp⟩, by trivial, fun op hop => absurd hop (List.not_mem_nil op), id⟩

mutual

theorem extract_entities_props (n : TSNode) (src : List Nat) (ents : Entities) (file : String) :
    ExtractProps ents (extract_entities n src ents file) := by
  match n with
  | TSNode.mk ty ns ne s e children =>
    have h1 := extract_step_props ty ns ne s e src ents file
    have h2 := extract_entities_list_props children src
      (extract_step ty ns ne s e src ents file).1 file
    simpa [extract_entities] using extractProps_comp h1 h2

theorem extract_entities_list_props (ns : List TSNode) (src : List Nat) (ents : Entities)
    (file : String) :
    ExtractProps ents (extract_entities_list ns src ents file) := by
  match ns with
  | [] => simpa [extract_entities_list] using extractProps_refl ents
  | c :: rest =>
    have h1 := extract_entities_props c src ents file
    have h2 := extract_entities_list_props rest src (extract_entities c src ents file).1 file
    simpa [extract_entities_list] using extractProps_comp h1 h2

end

/-- `MInv` only depends on the class and method lists. -/
theorem MInv_congr {e1 e2 : Entities} (hc : e1.classes = e2.classes)
    (hm : e1.methods = e2.methods) (h : MInv e1) : MInv e2 := by
  intro m hmem
  rw [← hm] at hmem
  obtain ⟨preCs, sufCs, c, hsplit, hfind, hname⟩ := h m hmem
  exact ⟨preCs, sufCs, c, hc ▸ hsplit, hfind, hname⟩

/-- Scanning one file preserves the method-ownership invariant. -/
theorem scan_file_minv (ents : Entities) (f : SourceFile) (h : MInv ents) :
    MInv (scan_file ents f).1 := by
  unfold scan_file
  by_cases hs : supported_ext f.ext
  · simp only [hs, if_true]
    have h1 : MInv (extract_entities f.tree f.source ents f.path).1 :=
      (extract_entities_props f.tree f.source ents f.path).2.2.2 h
    have h2 := MInv_congr
      (process_dependency_classes f.methodCallCaptures (lang_of f.ext) f.source _ f.path).symm
      (process_dependency_methods f.methodCallCaptures (lang_of f.ext) f.source _ f.path).symm h1
    have h3 := MInv_congr
      (process_dependency_classes f.importCaptures (lang_of f.ext) f.source _ f.path).symm
      (process_dependency_methods f.importCaptures (lang_of f.ext) f.source _ f.path).symm h2
    exact MInv_congr
      (process_dependency_classes f.inheritanceCaptures (lang_of f.ext) f.source _ f.path).symm
      (process_dependency_methods f.inheritanceCaptures (lang_of f.ext) f.source _ f.path).symm h3
  · simpa only [hs, if_false] using h

/-- Scanning a file list preserves the method-ownership invariant. -/
theorem scan_files_minv (files : List SourceFile) :
    ∀ ents : Entities, MInv ents → MInv (scan_files ents files).1 := by
  induction files with
  | nil => exact fun ents h => h
  | cons f rest ih =>
    intro ents h
    simpa [scan_files] using ih (scan_file ents f).1 (scan_file_minv ents f h)

/-- The method-ownership invariant holds of every full `scan_project` run. -/
theorem scan_project_minv (files : List SourceFile) : MInv (scan_project files).1 := by
  have h0 : MInv emptyEntities := fun m hm => absurd hm (List.not_mem_nil m)
  simpa [scan_project] using scan_files_minv files emptyEntities h0

/-- Concatenating an object name, a dot and a method name always yields a
splittable callee. -/
theorem split_callee_append_dot (a b : String) :
    (split_callee (a ++ "." ++ b)).isSome = true := by
  unfold split_callee
  have hm : Char.ofNat 46 ∈ (a ++ "." ++ b).toList := by
    have he : (a ++ "." ++ b).toList = (a.toList ++ [Char.ofNat 46]) ++ b.toList := rfl
    rw [he]
    exact List.mem_append.mpr (Or.inl (List.mem_append.mpr (Or.inr (by decide))))
  rw [if_pos (List.elem_eq_true_of_mem hm)]
  rfl

/-- Every `method_call` dependency emitted by the capture-processing loop has a
callee of the form `object ++ "." ++ method`, hence a splittable callee. -/
theorem new_deps_methodCall_callee (caps : List Capture) (lang : String) (src : List Nat)
    (ents : Entities) (file : String) (cap : Capture) (cc cm callee f : String)
    (hd : Dependency.methodCall cc cm callee f ∈ new_deps_for caps lang src ents file cap) :
    (split_callee callee).isSome = true := by
  unfold new_deps_for at hd
  repeat' split at hd
  all_goals first
    | exact absurd hd (List.not_mem_nil _)
    | (rw [List.mem_singleton] at hd
       first
         | (injection hd with h1 h2 h3 h4
            rw [h3]
            exact split_callee_append_dot _ _)
         | simp at hd)

/-- `DotInv` only depends on the dependency list. -/
theorem DotInv_congr {e1 e2 : Entities} (hd : e1.dependencies = e2.dependencies)
    (h : DotInv e1) : DotInv e2 := by
  intro cc cm callee f hmem
  exact h cc cm callee f (hd ▸ hmem)

/-- The capture-processing loop preserves callee splittability. -/
theorem process_dependency_dot (caps : List Capture) (lang : String) (src : List Nat)
    (ents : Entities) (file : String) (h : DotInv ents) :
    DotInv (process_dependency caps lang src ents file) := by
  intro cc cm callee f hmem
  rw [process_dependency_deps] at hmem
  rcases List.mem_append.mp hmem with hold | hnew
  · exact h cc cm callee f hold
  · obtain ⟨cap, hcap, hd⟩ := List.mem_flatMap.mp hnew
    exact new_deps_methodCall_callee caps lang src ents file cap cc cm callee f hd

/-- Scanning one file preserves callee splittability. -/
theorem scan_file_dot (ents : Entities) (f : SourceFile) (h : DotInv ents) :
    DotInv (scan_file ents f).1 := by
  unfold scan_file
  by_cases hs : supported_ext f.ext
  · simp only [hs, if_true]
    have h1 : DotInv (extract_entities f.tree f.source ents f.path).1 :=
      DotInv_congr (extract_entities_props f.tree f.source ents f.path).2.1.symm h
    exact process_dependency_dot _ _ _ _ _
      (process_dependency_dot _ _ _ _ _ (process_dependency_dot _ _ _ _ _ h1))
  · simpa only [hs, if_false] using h

/-- Scanning a file list preserves callee splittability. -/
theorem scan_files_dot (files : List SourceFile) :
    ∀ ents : Entities, DotInv ents → DotInv (scan_files ents files).1 := by
  induction files with
  | nil => exact fun ents h => h
  | cons f rest ih =>
    intro ents h
    simpa [scan_files] using ih (scan_file ents f).1 (scan_file_dot ents f h)

/-- Callee splittability holds of every full `scan_project` run. -/
theorem scan_project_dot (files : List SourceFile) : DotInv (scan_project files).1 := by
  have h0 : DotInv emptyEntities := fun cc cm callee f hm => absurd hm (List.not_mem_nil _)
  simpa [scan_project] using scan_files_dot files emptyEntities h0

/-- Scanning one file only issues entity upserts. -/
theorem scan_file_ops_entity (ents : Entities) (f : SourceFile) :
    ∀ op ∈ (scan_file ents f).2, entityOp op := by
  unfold scan_file
  by_cases hs : supported_ext f.ext
  · simp only [hs, if_true]
    exact (extract_entities_props f.tree f.source ents f.path).2.2.1
  · simp only [hs, if_false]
    exact fun op hop => absurd hop (List.not_mem_nil op)

/-- Scanning the file list only issues entity upserts. -/
theorem scan_files_ops_entity (files : List SourceFile) :
    ∀ ents : Entities, ∀ op ∈ (scan_files ents files).2, entityOp op := by
  induction files with
  | nil => exact fun ents op hop => absurd hop (List.not_mem_nil op)
  | cons f rest ih =>
    intro ents op hop
    have hsplit : (scan_files ents (f :: rest)).2
        = (scan_file ents f).2 ++ (scan_files (scan_file ents f).1 rest).2 := rfl
    rw [hsplit] at hop
    rcases List.mem_append.mp hop with h | h
    · exact scan_file_ops_entity ents f op h
    · exact ih (scan_file ents f).1 op h

/-- Merging a key puts it in the store. -/
theorem insertNew_mem_self {α : Type} [DecidableEq α] (x : α) (l : List α) :
    x ∈ insertNew x l := by
  unfold insertNew
  split
  · assumption
  · exact List.mem_append.mpr (Or.inr (List.mem_singleton.mpr rfl))

/-- Merging preserves the presence of other keys. -/
theorem insertNew_mem_of_mem {α : Type} [DecidableEq α] {x y : α} {l : List α}
    (h : x ∈ l) : x ∈ insertNew y l := by
  unfold insertNew
  split
  · exact h
  · exact List.mem_append.mpr (Or.inl h)

/-- Merging a key already present is a no-op. -/
theorem insertNew_eq_of_mem {α : Type} [DecidableEq α] {x : α} {l : List α}
    (h : x ∈ l) : insertNew x l = l := by
  unfold insertNew
  rw [if_pos h]

/-- A persister call whose keys are present leaves the store unchanged. -/
theorem apply_entity_op_applied_of (db : GraphDB) (op : PersistOp)
    (h : opApplied db op) : apply_entity_op db op = db := by
  cases op with
  | createClass n f =>
      simp only [apply_entity_op]
      rw [insertNew_eq_of_mem h]
  | createMethod n c f =>
      obtain ⟨h1, h2, h3⟩ := h
      simp only [apply_entity_op]
      rw [insertNew_eq_of_mem h1, insertNew_eq_of_mem h2, insertNew_eq_of_mem h3]
  | createDep d => rfl

/-- Applied-ness of one call is preserved by applying another. -/
theorem opApplied_mono (db : GraphDB) (op op2 : PersistOp) (h : opApplied db op) :
    opApplied (apply_entity_op db op2) op := by
  cases op with
  | createClass n f =>
      cases op2 with
      | createClass n2 f2 => exact insertNew_mem_of_mem h
      | createMethod n2 c2 f2 => exact insertNew_mem_of_mem h
      | createDep d => exact h
  | createMethod n c f =>
      obtain ⟨h1, h2, h3⟩ := h
      cases op2 with
      | createClass n2 f2 => exact ⟨h1, insertNew_mem_of_mem h2, h3⟩
      | createMethod n2 c2 f2 =>
          exact ⟨insertNew_mem_of_mem h1, insertNew_mem_of_mem h2, insertNew_mem_of_mem h3⟩
      | createDep d => exact ⟨h1, h2, h3⟩
  | createDep d => trivial

/-- Applying a call makes it applied. -/
theorem opApplied_self (db : GraphDB) (op : PersistOp) :
    opApplied (apply_entity_op db op) op := by
  cases op with
  | createClass n f => exact insertNew_mem_self _ _
  | createMethod n c f =>
      exact ⟨insertNew_mem_self _ _, insertNew_mem_self _ _, insertNew_mem_self _ _⟩
  | createDep d => trivial

/-- Applied-ness is preserved by applying any further call stream. -/
theorem opApplied_preserved_ops (db : GraphDB) (ops : List PersistOp) (op : PersistOp)
    (h : opApplied db op) : opApplied (apply_entity_ops db ops) op := by
  induction ops generalizing db with
  | nil => exact h
  | cons o rest ih => exact ih (apply_entity_op db o) (opApplied_mono db op o h)

/-- After applying a call stream, every call of the stream is applied. -/
theorem apply_entity_ops_all_applied (db : GraphDB) (ops : List PersistOp) :
    ∀ op ∈ ops, opApplied (apply_entity_ops db ops) op := by
  induction ops generalizing db with
  | nil => intro op hop; cases hop
  | cons o rest ih =>
    intro op hop
    rcases List.mem_cons.mp hop with rfl | h
    · exact opApplied_preserved_ops (apply_entity_op db op) rest op (opApplied_self db op)
    · exact ih (apply_entity_op db o) op h

/-- A call stream whose keys are all present leaves the store unchanged. -/
theorem apply_entity_ops_absorbed (db : GraphDB) (ops : List PersistOp)
    (h : ∀ op ∈ ops, opApplied db op) : apply_entity_ops db ops = db := by
  induction ops with
  | nil => rfl
  | cons o rest ih =>
    have h0 := apply_entity_op_applied_of db o (h o (List.mem_cons_self o rest))
    show apply_entity_ops (apply_entity_op db o) rest = db
    rw [h0]
    exact ih (fun op hop => h op (List.mem_cons_of_mem o hop))

/-- Replaying any persister call stream is absorbed by the merge semantics. -/
theorem apply_entity_ops_idem (db : GraphDB) (ops : List PersistOp) :
    apply_entity_ops (apply_entity_ops db ops) ops = apply_entity_ops db ops :=
  apply_entity_ops_absorbed _ _ (apply_entity_ops_all_applied db ops)

/-- If a list has a member satisfying the predicate and that member is the only
one satisfying it, `find?` returns it. -/
theorem find?_eq_some_of_unique {α : Type} (p : α → Bool) (l : List α) (x : α)
    (hx : x ∈ l) (hpx : p x = true) (huni : ∀ y ∈ l, p y = true → y = x) :
    l.find? p = some x := by
  induction l with
  | nil => cases hx
  | cons a t ih =>
    cases hpa : p a with
    | true =>
      rw [List.find?_cons_of_pos _ hpa]
      rw [huni a (List.mem_cons_self a t) hpa]
    | false =>
      have hx2 : x ∈ t := by
        rcases List.mem_cons.mp hx with h | h
        · subst h; rw [hpx] at hpa; cases hpa
        · exact h
      rw [List.find?_cons_of_neg _ (by simp [hpa])]
      exact ih hx2 (fun y hy hpy => huni y (List.mem_cons_of_mem a hy) hpy)

/-- If exactly one same-file method entity span contains the offset,
`_find_enclosing_entity` returns it. -/
theorem find_enclosing_method_unique (o : Nat) (methods : List MethodEntity)
    (file : String) (m : MethodEntity) (hm : m ∈ methods) (hf : m.file = file)
    (hcont : methodContains m o = true)
    (huni : ∀ y ∈ methods, y.file = file → methodContains y o = true → y = m) :
    find_enclosing_method o methods file = some m := by
  unfold find_enclosing_method
  apply find?_eq_some_of_unique _ _ m (List.mem_filter.mpr ⟨hm, by simp [hf]⟩) hcont
  intro y hy hpy
  obtain ⟨hy1, hy2⟩ := List.mem_filter.mp hy
  exact huni y hy1 (by simpa using hy2) hpy

/-- If exactly one same-file class entity span contains the offset,
`_find_enclosing_entity` returns it. -/
theorem find_enclosing_class_unique (o : Nat) (classes : List ClassEntity)
    (file : String) (c : ClassEntity) (hc : c ∈ classes) (hf : c.file = file)
    (hcont : classContains c o = true)
    (huni : ∀ y ∈ classes, y.file = file → classContains y o = true → y = c) :
    find_enclosing_class o classes file = some c := by
  unfold find_enclosing_class
  apply find?_eq_some_of_unique _ _ c (List.mem_filter.mpr ⟨hc, by simp [hf]⟩) hcont
  intro y hy hpy
  obtain ⟨hy1, hy2⟩ := List.mem_filter.mp hy
  exact huni y hy1 (by simpa using hy2) hpy

/-- If no method entity span at all contains the offset, the enclosing-method
lookup fails. -/
theorem find_enclosing_method_none (o : Nat) (methods : List MethodEntity)
    (file : String) (h : ∀ m ∈ methods, ¬(m.startByte ≤ o ∧ o < m.endByte)) :
    find_enclosing_method o methods file = none := by
  unfold find_enclosing_method
  rw [List.find?_eq_none]
  intro x hx
  simpa [methodContains] using h x (List.mem_filter.mp hx).1

/-- If no class entity span at all contains the offset, the enclosing-class
lookup fails. -/
theorem find_enclosing_class_none (o : Nat) (classes : List ClassEntity)
    (file : String) (h : ∀ c ∈ classes, ¬(c.startByte ≤ o ∧ o < c.endByte)) :
    find_enclosing_class o classes file = none := by
  unfold find_enclosing_class
  rw [List.find?_eq_none]
  intro x hx
  simpa [classContains] using h x (List.mem_filter.mp hx).1

/-- The only import dependency a Java capture contributes is one per
`import_path` tag, with the verbatim node text. -/
theorem new_deps_java_imports (caps : List Capture) (src : List Nat) (ents : Entities)
    (file : String) (cap : Capture) :
    (new_deps_for caps "java" src ents file cap).filterMap importPathOf
      = (if cap.2 = "import_path" then [get_node_text src cap.1] else []) := by
  unfold new_deps_for
  rw [if_pos rfl]
  repeat' split
  all_goals simp_all [importPathOf]

/-- The only import dependency a TypeScript capture contributes is one per tag
starting with `"import"`, with the (whole-query) first `module_path` text,
quotes stripped, if that text is non-empty. -/
theorem new_deps_ts_imports (caps : List Capture) (src : List Nat) (ents : Entities)
    (file : String) (cap : Capture) :
    (new_deps_for caps "typescript" src ents file cap).filterMap importPathOf
      = (if py_starts_with cap.2 "import" then
           (match capture_first_module_path caps src with
            | some mp => if mp ≠ "" then [mp] else []
            | none => [])
         else []) := by
  unfold new_deps_for
  rw [if_neg (by decide), if_pos rfl]
  repeat' split
  all_goals simp_all [importPathOf, show py_starts_with "call" "import" = false from by decide]

/-- Whole-capture-list version of `new_deps_java_imports`. -/
theorem flatMap_java_imports (caps : List Capture) (src : List Nat) (ents : Entities)
    (file : String) (l : List Capture) :
    (l.flatMap (new_deps_for caps "java" src ents file)).filterMap importPathOf
      = l.filterMap
          (fun p => if p.2 = "import_path" then some (get_node_text src p.1) else none) := by
  induction l with
  | nil => rfl
  | cons a t ih =>
    rw [List.flatMap_cons, List.filterMap_append, ih, List.filterMap_cons,
      new_deps_java_imports]
    by_cases h : a.2 = "import_path"
    · rw [if_pos h, if_pos h]
      rfl
    · rw [if_neg h, if_neg h]
      rfl

/-- Whole-capture-list version of `new_deps_ts_imports`. -/
theorem flatMap_ts_imports (caps : List Capture) (src : List Nat) (ents : Entities)
    (file : String) (l : List Capture) :
    (l.flatMap (new_deps_for caps "typescript" src ents file)).filterMap importPathOf
      = l.filterMap
          (fun p =>
            if py_starts_with p.2 "import" then
              (match capture_first_module_path caps src with
               | some mp => if mp ≠ "" then some mp else none
               | none => none)
            else none) := by
  induction l with
  | nil => rfl
  | cons a t ih =>
    rw [List.flatMap_cons, List.filterMap_append, ih, List.filterMap_cons,
      new_deps_ts_imports]
    by_cases hb : py_starts_with a.2 "import" = true
    · rw [if_pos hb, if_pos hb]
      cases hmp : capture_first_module_path caps src with
      | none => rfl
      | some mp =>
        by_cases hne : mp ≠ ""
        · simp [hne]
        · simp [hne]
    · rw [if_neg hb, if_neg hb]
      rfl

/-! ## Claim theorems -/

/-- C1 (code bug): `get_method_source` never returns the method's source slice.
On the Java file `class A { void f ( ) { } }` and method name `f`, it returns
`None` even though the file contains a `method_declaration` named `f` (second
conjunct) whose parent slice is the intended result (fourth conjunct): the
capture loop passes the decoded `str` back into `_get_node_text`, whose
`.decode('utf-8')` call raises `AttributeError` (third conjunct), caught by the
blanket `except` which returns `None`. The claim states the slice is returned
and that `None` is returned exactly when the method is missing or the language
unsupported. -/
theorem C1_code_bug_get_method_source :
    get_method_source "f" ".java" (strToBytes s8) caps8 = none ∧
    (∃ cap ∈ caps8, cap.tag = "method_name" ∧
      getTextSpan (strToBytes s8) cap.nodeStart cap.nodeEnd = "f") ∧
    gms_loop "f" (decodeBytes (strToBytes s8)) (strToBytes s8) caps8
      = Except.error "AttributeError: str object has no attribute decode" ∧
    decodeBytes (((strToBytes s8).drop 10).take (24 - 10)) = "void f ( ) \x7b \x7d" :=
  ⟨by decide, by decide, rfl, by decide⟩

/-- C2 (counterexample): scanning `p1.java` (`class A { int x ; }`) and then
`p2.java` (`interface Foo { void m ( ) ; } class A { }`), the interface method
`m` of `p2.java` (start offset 16) is emitted and attributed to class `A` of
`p1.java`, although no previously emitted class of `p2.java` contains offset
16 — refuting both the same-file restriction and the discard clause. Scanning
the single file `p3.java` (`class A { class B { void m ( ) { } } }`), the
method at offset 20 is attributed to the first emitted containing class `A`,
although class `B` also contains offset 20 with a strictly smaller span —
refuting the smallest-span selection. -/
theorem C2_counterexample :
    ((scan_project [file1, file2]).1.methods
      = [⟨"m", "A", "p2.java", 16, 28⟩]) ∧
    (∀ c ∈ (scan_project [file1, file2]).1.classes,
      c.file = "p2.java" → ¬(c.startByte ≤ 16 ∧ 16 < c.endByte)) ∧
    ((scan_project [file3]).1.methods = [⟨"m", "A", "p3.java", 20, 34⟩]) ∧
    ((⟨"B", "p3.java", 10, 36⟩ : ClassEntity) ∈ (scan_project [file3]).1.classes) ∧
    classContains ⟨"B", "p3.java", 10, 36⟩ 20 = true ∧
    36 - 10 < 38 - 0 ∧ ("B" : String) ≠ "A" := by
  decide

/-- C2 (amended): in every `scan_project` run, each emitted method entity is
owned by the first class — in emission (pre-order) order, among the classes of
all files accumulated up to the method's emission, with no file filter — whose
span satisfies `start ≤ node.start < end`; a method whose start offset no such
class contains is discarded. -/
theorem C2_corrected (files : List SourceFile) (m : MethodEntity)
    (hm : m ∈ (scan_project files).1.methods) :
    ∃ preCs sufCs c, (scan_project files).1.classes = preCs ++ sufCs ∧
      preCs.find? (fun cc => classContains cc m.startByte) = some c ∧
      c.name = m.className :=
  scan_project_minv files m hm

/-- C2 (witness): the amended claim applied to the method `f` extracted from
the scan of `p5.java`. -/
theorem C2_witness :
    ∃ preCs sufCs c, (scan_project [file5]).1.classes = preCs ++ sufCs ∧
      preCs.find? (fun cc => classContains cc fEntity5.startByte) = some c ∧
      c.name = fEntity5.className :=
  C2_corrected [file5] fEntity5 (by decide)

/-- C3 (counterexample): in `p4.java`
(`class A { void f ( ) { class B { void g ( ) { x . h ( ) ; } } } }`) the call
`x . h ( )` at offset 46 is written inside method `g` of the local class `B`
(the innermost method: `g`'s span `[33, 59)` contains 46 and lies strictly
inside `f`'s span `[10, 63)`), yet the single emitted edge carries
`caller_class = "A"`, `caller_method = "f"`. -/
theorem C3_counterexample :
    ((scan_project [file4]).1.dependencies
      = [Dependency.methodCall "A" "f" "x.h" "p4.java"]) ∧
    ((⟨"g", "A", "p4.java", 33, 59⟩ : MethodEntity) ∈ (scan_project [file4]).1.methods) ∧
    (33 ≤ 46 ∧ 46 < 59) ∧
    ((⟨"f", "A", "p4.java", 10, 63⟩ : MethodEntity) ∈ (scan_project [file4]).1.methods) ∧
    (10 ≤ 33 ∧ 59 ≤ 63) ∧
    ((⟨"B", "p4.java", 23, 61⟩ : ClassEntity) ∈ (scan_project [file4]).1.classes) ∧
    (23 ≤ 46 ∧ 46 < 61) ∧
    ("f" : String) ≠ "g" ∧ ("A" : String) ≠ "B" := by
  decide

/-- C3 (amended): the edge emitted for a Java call anchor is attributed to the
first extracted same-file class and first extracted same-file method (in
emission order) whose spans contain the anchor's start offset; in particular,
when exactly one same-file method span and exactly one same-file class span
contain the offset, the edge carries exactly that method and class. The second
conjunct characterises the loop as appending the per-capture contributions. -/
theorem C3_corrected (caps : List Capture) (src : List Nat) (ents : Entities)
    (file : String) (n : TSNode) (m : MethodEntity) (c : ClassEntity)
    (hmm : m ∈ ents.methods) (hmf : m.file = file)
    (hmc : m.startByte ≤ n.startByte ∧ n.startByte < m.endByte)
    (hmu : ∀ y ∈ ents.methods, y.file = file →
      y.startByte ≤ n.startByte ∧ n.startByte < y.endByte → y = m)
    (hcm : c ∈ ents.classes) (hcf : c.file = file)
    (hcc : c.startByte ≤ n.startByte ∧ n.startByte < c.endByte)
    (hcu : ∀ y ∈ ents.classes, y.file = file →
      y.startByte ≤ n.startByte ∧ n.startByte < y.endByte → y = c) :
    (∀ d ∈ new_deps_for caps "java" src ents file (n, "call"),
      ∃ callee, d = Dependency.methodCall c.name m.name callee file) ∧
    (process_dependency caps "java" src ents file).dependencies
      = ents.dependencies ++ caps.flatMap (new_deps_for caps "java" src ents file) := by
  refine ⟨?_, process_dependency_deps caps "java" src ents file⟩
  have hfc : find_enclosing_class n.startByte ents.classes file = some c :=
    find_enclosing_class_unique n.startByte ents.classes file c hcm hcf
      (by simpa [classContains] using hcc)
      (fun y hy hyf hyc => hcu y hy hyf (by simpa [classContains] using hyc))
  have hfm : find_enclosing_method n.startByte ents.methods file = some m :=
    find_enclosing_method_unique n.startByte ents.methods file m hmm hmf
      (by simpa [methodContains] using hmc)
      (fun y hy hyf hyc => hmu y hy hyf (by simpa [methodContains] using hyc))
  have hval : new_deps_for caps "java" src ents file (n, "call") = [] ∨
      ∃ callee, new_deps_for caps "java" src ents file (n, "call")
        = [Dependency.methodCall c.name m.name callee file] := by
    unfold new_deps_for
    rw [if_pos rfl, if_pos rfl]
    cases capture_last_text caps "method" src with
    | none => exact Or.inl rfl
    | some mn =>
      cases capture_last_text caps "object" src with
      | none => exact Or.inl rfl
      | some ob =>
        dsimp only
        by_cases hne : mn ≠ "" ∧ ob ≠ ""
        · rw [if_pos hne, hfc, hfm]
          exact Or.inr ⟨ob ++ "." ++ mn, rfl⟩
        · rw [if_neg hne]
          exact Or.inl rfl
  intro d hd
  rcases hval with hv | ⟨callee, hv⟩
  · rw [hv] at hd
    cases hd
  · rw [hv] at hd
    rw [List.mem_singleton] at hd
    exact ⟨callee, hd⟩

/-- C3 (witness): the amended claim applied to the single call of `p5.java`
with the entities its extraction produces. -/
theorem C3_witness :
    (∀ d ∈ new_deps_for file5.methodCallCaptures "java" (strToBytes s5)
        (Entities.mk [aEntity5] [fEntity5] []) "p5.java" (callNode5, "call"),
      ∃ callee, d = Dependency.methodCall aEntity5.name fEntity5.name callee "p5.java") ∧
    (process_dependency file5.methodCallCaptures "java" (strToBytes s5)
        (Entities.mk [aEntity5] [fEntity5] []) "p5.java").dependencies
      = (Entities.mk [aEntity5] [fEntity5] []).dependencies
        ++ file5.methodCallCaptures.flatMap
            (new_deps_for file5.methodCallCaptures "java" (strToBytes s5)
              (Entities.mk [aEntity5] [fEntity5] []) "p5.java") :=
  C3_corrected file5.methodCallCaptures (strToBytes s5)
    (Entities.mk [aEntity5] [fEntity5] []) "p5.java" callNode5 fEntity5 aEntity5
    (by decide) (by decide) (by decide) (by decide) (by decide) (by decide)
    (by decide) (by decide)

/-- C4 (counterexample): the TypeScript import statement
`import { a } from "m" ;` — whose query match captures `named_imports` and
`module_path` but no `import_default` — produces zero import dependencies,
refuting "one edge per import statement". -/
theorem C4_counterexample :
    (process_dependency caps9 "typescript" (strToBytes s9) emptyEntities
      "p9.ts").dependencies = [] ∧
    (stringNode9, "module_path") ∈ caps9 := by
  constructor
  · decide
  · unfold caps9
    exact List.mem_cons_of_mem _ (List.mem_cons_self _ _)

/-- C4 (amended): per file, Java import processing emits exactly one import
dependency per `import_path` capture, with the verbatim captured text; while
TypeScript import processing emits one import dependency per capture whose tag
starts with `"import"` (only import statements with a default-import clause
have such a capture), each carrying the text of the first `module_path`
capture of the whole query, quotes stripped, when that text is non-empty. -/
theorem C4_corrected (caps : List Capture) (src : List Nat) (ents : Entities)
    (file : String) :
    ((process_dependency caps "java" src ents file).dependencies
      = ents.dependencies ++ caps.flatMap (new_deps_for caps "java" src ents file)) ∧
    ((caps.flatMap (new_deps_for caps "java" src ents file)).filterMap importPathOf
      = caps.filterMap
          (fun p => if p.2 = "import_path" then some (get_node_text src p.1) else none)) ∧
    ((process_dependency caps "typescript" src ents file).dependencies
      = ents.dependencies ++ caps.flatMap (new_deps_for caps "typescript" src ents file)) ∧
    ((caps.flatMap (new_deps_for caps "typescript" src ents file)).filterMap importPathOf
      = caps.filterMap
          (fun p =>
            if py_starts_with p.2 "import" then
              (match capture_first_module_path caps src with
               | some mp => if mp ≠ "" then some mp else none
               | none => none)
            else none)) :=
  ⟨process_dependency_deps caps "java" src ents file,
   flatMap_java_imports caps src ents file caps,
   process_dependency_deps caps "typescript" src ents file,
   flatMap_ts_imports caps src ents file caps⟩

/-- C5 (counterexample): after scanning `p1.java` then `p2.java`, class
`A` of `p2.java` (span `[31, 42)`) and method `m` of `p2.java` (span
`[16, 28)`, owning class name `A`) are a same-file pair whose method span is
not contained in the class span. -/
theorem C5_counterexample :
    ((⟨"A", "p2.java", 31, 42⟩ : ClassEntity) ∈ (scan_project [file1, file2]).1.classes) ∧
    ((⟨"m", "A", "p2.java", 16, 28⟩ : MethodEntity) ∈ (scan_project [file1, file2]).1.methods) ∧
    ¬(31 ≤ 16 ∧ 28 ≤ 42) := by
  decide

/-- C5 (amended): every method entity of a `scan_project` run names an owning
class for which some extracted class entity — not necessarily of the same
file — has that name and a span containing the method's start offset; full
span containment in a same-file class of that name is not guaranteed. -/
theorem C5_corrected (files : List SourceFile) (m : MethodEntity)
    (hm : m ∈ (scan_project files).1.methods) :
    ∃ c ∈ (scan_project files).1.classes, c.name = m.className ∧
      c.startByte ≤ m.startByte ∧ m.startByte < c.endByte := by
  obtain ⟨preCs, sufCs, c, hsplit, hfind, hname⟩ := scan_project_minv files m hm
  refine ⟨c, ?_, hname, ?_⟩
  · rw [hsplit]
    exact List.mem_append.mpr (Or.inl (List.mem_of_find?_eq_some hfind))
  · simpa [classContains] using List.find?_some hfind

/-- C5 (witness): the amended claim applied to the method `f` of `p5.java`. -/
theorem C5_witness :
    ∃ c ∈ (scan_project [file5]).1.classes, c.name = fEntity5.className ∧
      c.startByte ≤ fEntity5.startByte ∧ fEntity5.startByte < c.endByte :=
  C5_corrected [file5] fEntity5 (by decide)

/-- C6 (confirmed): a call anchor whose start offset is contained in no
extracted method span, or in no extracted class span, contributes zero
dependencies; and the loop output is exactly the input dependencies followed
by the per-capture contributions, so that call contributes zero edges. -/
theorem C6_confirmed (caps : List Capture) (lang : String) (src : List Nat)
    (ents : Entities) (file : String) (n : TSNode)
    (_hmem : (n, "call") ∈ caps)
    (h : (∀ m ∈ ents.methods, ¬(m.startByte ≤ n.startByte ∧ n.startByte < m.endByte)) ∨
         (∀ c ∈ ents.classes, ¬(c.startByte ≤ n.startByte ∧ n.startByte < c.endByte))) :
    new_deps_for caps lang src ents file (n, "call") = [] ∧
    (process_dependency caps lang src ents file).dependencies
      = ents.dependencies ++ caps.flatMap (new_deps_for caps lang src ents file) := by
  refine ⟨?_, process_dependency_deps caps lang src ents file⟩
  have hcm : find_enclosing_class n.startByte ents.classes file = none ∨
      find_enclosing_method n.startByte ents.methods file = none := by
    rcases h with h | h
    · exact Or.inr (find_enclosing_method_none n.startByte ents.methods file h)
    · exact Or.inl (find_enclosing_class_none n.startByte ents.classes file h)
  unfold new_deps_for
  by_cases hl1 : lang = "java"
  · rw [if_pos hl1, if_pos rfl]
    cases h1 : capture_last_text caps "method" src with
    | none => rfl
    | some mn =>
      cases h2 : capture_last_text caps "object" src with
      | none => rfl
      | some ob =>
        dsimp only
        by_cases hne : mn ≠ "" ∧ ob ≠ ""
        · rw [if_pos hne]
          rcases hcm with hc | hm2
          · rw [hc]
          · rw [hm2]
            cases find_enclosing_class n.startByte ents.classes file <;> rfl
        · rw [if_neg hne]
  · rw [if_neg hl1]
    by_cases hl2 : lang = "typescript"
    · rw [if_pos hl2, if_pos rfl]
      cases h1 : capture_last_text caps "method" src with
      | none => rfl
      | some mn =>
        cases h2 : capture_last_text caps "object" src with
        | none => rfl
        | some ob =>
          dsimp only
          by_cases hne : mn ≠ "" ∧ ob ≠ ""
          · rw [if_pos hne]
            rcases hcm with hc | hm2
            · rw [hc]
            · rw [hm2]
              cases find_enclosing_class n.startByte ents.classes file <;> rfl
          · rw [if_neg hne]
    · rw [if_neg hl2]

/-- C6 (witness): the claim applied to the call of `p5.java` against an empty
entity set (a file-scope call: no extracted method span contains it). -/
theorem C6_witness :
    new_deps_for file5.methodCallCaptures "java" (strToBytes s5) emptyEntities
      "p5.java" (callNode5, "call") = [] ∧
    (process_dependency file5.methodCallCaptures "java" (strToBytes s5)
      emptyEntities "p5.java").dependencies
      = emptyEntities.dependencies
        ++ file5.methodCallCaptures.flatMap
            (new_deps_for file5.methodCallCaptures "java" (strToBytes s5)
              emptyEntities "p5.java") :=
  C6_confirmed file5.methodCallCaptures "java" (strToBytes s5) emptyEntities
    "p5.java" callNode5 (List.mem_cons_self _ _)
    (Or.inl (fun m hm => absurd hm (List.not_mem_nil m)))

/-- C7 (confirmed): a persisted inheritance dependency never yields both
`IMPLEMENTS` and `EXTENDS` relationships (first conjunct, for every store state
and dependency); and the Java declaration `class C implements X , Y { }`,
scanned on its own, yields exactly one inheritance dependency carrying both
interfaces, which the persister — primed with that same run's entity upserts —
turns into exactly the two `IMPLEMENTS` relationships `C→X`, `C→Y` and no
`EXTENDS` relationship. -/
theorem C7_confirmed :
    (∀ (db : GraphDB) (d : Dependency),
      ¬(((create_dependency_transaction db d).any edgeIsImplements = true) ∧
        ((create_dependency_transaction db d).any edgeIsExtends = true))) ∧
    (scan_project [file7]).1.dependencies
      = [Dependency.inheritImpl "C" "p7.java" ["X", "Y"]] ∧
    create_dependency_transaction (apply_entity_ops emptyDB (scan_project [file7]).2)
        (Dependency.inheritImpl "C" "p7.java" ["X", "Y"])
      = [GraphEdge.implementsEdge ("C", "p7.java") "X",
         GraphEdge.implementsEdge ("C", "p7.java") "Y"] := by
  refine ⟨?_, by decide, by decide⟩
  rintro db d ⟨himpl, hext⟩
  cases d with
  | methodCall a b cal fl =>
    unfold create_dependency_transaction at himpl
    dsimp only at himpl
    cases hsc : split_callee cal with
    | none => rw [hsc] at himpl; cases himpl
    | some pr =>
      rw [hsc] at himpl
      obtain ⟨e, he, hpe⟩ := List.any_eq_true.mp himpl
      obtain ⟨ck, hck, he2⟩ := List.mem_flatMap.mp he
      obtain ⟨mk2, hmk2, rfl⟩ := List.mem_map.mp he2
      cases hpe
  | imp fl pa =>
    unfold create_dependency_transaction at himpl
    dsimp only at himpl
    obtain ⟨e, he, hpe⟩ := List.any_eq_true.mp himpl
    obtain ⟨ck, hck, rfl⟩ := List.mem_map.mp he
    cases hpe
  | inheritImpl cls fl ifs =>
    unfold create_dependency_transaction at hext
    dsimp only at hext
    split at hext
    · obtain ⟨e, he, hpe⟩ := List.any_eq_true.mp hext
      obtain ⟨i, hi, rfl⟩ := List.mem_map.mp he
      cases hpe
    · cases hext
  | inheritExt cls fl par =>
    unfold create_dependency_transaction at himpl
    dsimp only at himpl
    split at himpl
    · obtain ⟨e, he, hpe⟩ := List.any_eq_true.mp himpl
      rw [List.mem_singleton] at he
      subst he
      cases hpe
    · cases himpl

/-- C8 (confirmed): the persister call stream of every `scan_project` run is a
block of entity upserts (classes and methods, across all files) followed by a
block of dependency-edge creations: no edge creation is issued before every
entity upsert of the run. -/
theorem C8_confirmed (files : List SourceFile) :
    ∃ entOps depOps, (scan_project files).2 = entOps ++ depOps ∧
      (∀ op ∈ entOps, entityOp op) ∧
      (∀ op ∈ depOps, ∃ d, op = PersistOp.createDep d) := by
  refine ⟨(scan_files emptyEntities files).2,
    (scan_files emptyEntities files).1.dependencies.map PersistOp.createDep,
    rfl, scan_files_ops_entity files emptyEntities, ?_⟩
  intro op hop
  obtain ⟨d, hd, rfl⟩ := List.mem_map.mp hop
  exact ⟨d, rfl⟩

/-- C9 (confirmed): replaying the entity-upsert stream of an extraction run
against any store state is absorbed by the `MERGE` semantics — persisting the
extraction of an unchanged file twice leaves exactly the node and relationship
sets of persisting it once (no duplicate nodes). -/
theorem C9_confirmed (tree : TSNode) (src : List Nat) (file : String) (db : GraphDB) :
    apply_entity_ops
        (apply_entity_ops db (extract_entities tree src emptyEntities file).2)
        (extract_entities tree src emptyEntities file).2
      = apply_entity_ops db (extract_entities tree src emptyEntities file).2 :=
  apply_entity_ops_idem db (extract_entities tree src emptyEntities file).2

/-- C10 (confirmed): every `method_call` dependency a `scan_project` run
accumulates has a callee of the form `object.method`, so the persister's
`split('.', 1)` unpacking succeeds and its malformed-callee warning branch is
unreachable for edges produced by the scan. -/
theorem C10_confirmed (files : List SourceFile) (cc cm callee f : String)
    (hmem : Dependency.methodCall cc cm callee f ∈ (scan_project files).1.dependencies) :
    (split_callee callee).isSome = true :=
  scan_project_dot files cc cm callee f hmem

/-- C10 (witness): the claim applied to the call edge of the `p5.java` scan. -/
theorem C10_witness : (split_callee "b.g").isSome = true :=
  C10_confirmed [file5] "A" "f" "b.g" "p5.java" (by decide)

end DepGraphX

